import Mathlib

/-!
Verification of the Station Energy Management core (`sems_core`): the
two-level water-filling power allocator (`allocator.rs`) and the enclosing
`StationState` registry (`lib.rs`).

Modelling conventions:
* `u32` power values are modelled as `Nat`; Rust release-mode wrapping
  subtraction (the plain `-` operator on `u32`) is modelled by `u32sub`
  where underflow is actually possible (the derived capacity quantities).
  The plain subtraction inside the allocator loops is modelled by
  truncated `Nat` subtraction: there the minuend provably dominates.
* The Rust `loop`s are modelled with explicit fuel; `none` means the loop
  has not exited within the given fuel (in particular, a loop that never
  exits yields `none` for every fuel).
* `HashMap`s are modelled as association lists; `uuid::Uuid` session ids
  are modelled as `Nat`, with freshness of minted ids made explicit.
* A Rust `panic!`/`expect` failure is modelled as `none`.
-/

/-- Charging-station configuration (`models.rs`, `StationConfig`). -/
structure ChargerConfig where
  id : String
  max_power : Nat
  connectors : Nat
deriving Repr, DecidableEq

/-- Battery descriptor (`models.rs`, `Bess`); declared but unused by the allocator. -/
structure Bess where
  initial_capacity : Nat
  power : Nat
deriving Repr, DecidableEq

/-- Station configuration (`models.rs`, `StationConfig`). -/
structure StationConfig where
  station_id : String
  grid_capacity : Nat
  chargers : List ChargerConfig
  battery : Option Bess
deriving Repr, DecidableEq

/-- Connector identifier (`models.rs`, `ConnectorId`). -/
structure ConnectorId where
  charger_id : String
  idx : Nat
deriving Repr, DecidableEq

/-- Charging session (`models.rs`, `Session`); `session_id` models the UUID. -/
structure Session where
  session_id : Nat
  connector_id : ConnectorId
  allocated_power : Nat
  vehicle_max_power : Nat
deriving Repr, DecidableEq

/-- `2^32`, the modulus of Rust `u32` arithmetic. -/
def U32 : Nat := 4294967296

/-- Rust release-mode `u32` subtraction: exact when no underflow, wrapping
modulo `2^32` on underflow (for operands below `2^32`).  In debug mode Rust
panics instead; either way it does not saturate at `0`. -/
def u32sub (a b : Nat) : Nat :=
  if b ≤ a then a - b else a + U32 - b

/-- Sum of `allocated_power` over a session list. -/
def sum_alloc (ss : List Session) : Nat :=
  (ss.map Session.allocated_power).sum

/-- Reset a session's allocation to `0` (the `clone` + `allocated_power = 0`
pattern at the top of both allocator functions). -/
def zero_alloc (s : Session) : Session :=
  { s with allocated_power := 0 }

/-- A session that could still take more power (`allocated_power < vehicle_max_power`). -/
def under_max (s : Session) : Bool :=
  s.allocated_power < s.vehicle_max_power

/-- One attribution step of the connector loop: each under-max session gains
`fair`, clamped at its `vehicle_max_power` (`allocator.rs` lines 32-38). -/
def add_fair (fair : Nat) (s : Session) : Session :=
  if under_max s then
    { s with allocated_power := min (s.allocated_power + fair) s.vehicle_max_power }
  else s

/-- The `loop` inside `allocate_connector` (`allocator.rs` lines 15-39), with
explicit fuel.  The subtraction `cap - sum_alloc ss` models the Rust `u32`
subtraction; on every state this loop reaches from a zeroed session list the
sum stays below `cap`, so truncated subtraction is exact there.  Note the
loop only stops on `remaining_power = 0` or no under-max session: there is
no stop when the fair share reaches `0`. -/
def connector_loop : Nat → Nat → List Session → Option (List Session)
  | 0, _, _ => none
  | fuel + 1, cap, ss =>
    let remaining_power := cap - sum_alloc ss
    let n := (ss.filter under_max).length
    if remaining_power = 0 ∨ n = 0 then some ss
    else connector_loop fuel cap (ss.map (add_fair (remaining_power / n)))

/-- `allocate_connector` (`allocator.rs` lines 5-41): zero all allocations,
then water-fill up to `charger_capacity`. -/
def allocate_connector (fuel : Nat) (sessions : List Session) (charger_capacity : Nat) :
    Option (List Session) :=
  connector_loop fuel charger_capacity (sessions.map zero_alloc)

/-- The sessions of one charger, allocations zeroed (`allocator.rs` lines 125-143). -/
def charger_sessions_of (sessions : List Session) (c : ChargerConfig) : List Session :=
  (sessions.filter fun s => decide (s.connector_id.charger_id = c.id)).map zero_alloc

/-- Split the sessions by charger, dropping chargers with no session
(`allocator.rs` lines 125-143; sessions on chargers absent from the table
are dropped by the `filter_map`). -/
def group_sessions (chargers_config : List ChargerConfig) (sessions : List Session) :
    List (ChargerConfig × List Session) :=
  (chargers_config.map fun c => (c, charger_sessions_of sessions c)).filter
    fun p => !p.2.isEmpty

/-- Number of under-max sessions in a list. -/
def under_count (ss : List Session) : Nat :=
  (ss.filter under_max).length

/-- A charger that can still take more power: charger sum strictly below its
`max_power` and at least one under-max session (`allocator.rs` lines 158-178). -/
def active_charger (p : ChargerConfig × List Session) : Bool :=
  decide (sum_alloc p.2 < p.1.max_power) && decide (0 < under_count p.2)

/-- Total allocation over all groups (`allocator.rs` lines 147-152;
the Rust subtraction there is `saturating_sub`). -/
def total_alloc (gs : List (ChargerConfig × List Session)) : Nat :=
  (gs.map fun p => sum_alloc p.2).sum

/-- The per-round award step (`allocator.rs` lines 202-219): every charger
that can still take power is awarded `under_count × fair` additional kW,
capped at its `max_power`, and its sessions are re-water-filled by
`allocate_connector`. -/
def update_groups (innerFuel fair : Nat) :
    List (ChargerConfig × List Session) → Option (List (ChargerConfig × List Session))
  | [] => some []
  | p :: rest =>
    let hd :=
      if active_charger p then
        (allocate_connector innerFuel p.2
            (min (sum_alloc p.2 + under_count p.2 * fair) p.1.max_power)).map
          fun ss => (p.1, ss)
      else some p
    match hd, update_groups innerFuel fair rest with
    | some q, some rest2 => some (q :: rest2)
    | _, _ => none

/-- The `loop` inside `allocate_power_station` (`allocator.rs` lines 145-220),
with explicit fuel.  It stops when the station remaining power is `0` or no
charger is active; like the connector loop it has no stop when the fair
share reaches `0`. -/
def station_loop (innerFuel : Nat) :
    Nat → Nat → List (ChargerConfig × List Session) →
    Option (List (ChargerConfig × List Session))
  | 0, _, _ => none
  | fuel + 1, cap, gs =>
    let remaining_power := cap - total_alloc gs
    if remaining_power = 0 then some gs
    else
      let active := gs.filter active_charger
      if active.isEmpty then some gs
      else
        let d := (active.map fun p => under_count p.2).sum
        match update_groups innerFuel (remaining_power / d) gs with
        | some gs2 => station_loop innerFuel fuel cap gs2
        | none => none

/-- Flatten the per-charger groups back to one session list
(`allocator.rs` lines 221-224). -/
def flatten_sessions : List (ChargerConfig × List Session) → List Session
  | [] => []
  | p :: rest => p.2 ++ flatten_sessions rest

/-- `allocate_power_station` (`allocator.rs` lines 119-225). -/
def allocate_power_station (innerFuel fuel : Nat) (current_sessions : List Session)
    (chargers_config : List ChargerConfig) (station_capacity : Nat) :
    Option (List Session) :=
  (station_loop innerFuel fuel station_capacity
      (group_sessions chargers_config current_sessions)).map flatten_sessions

/-- `HashMap::insert` on the session registry keyed by `session_id`:
replace the entry with the same key, otherwise add the session. -/
def insert_session (sessions : List Session) (t : Session) : List Session :=
  if sessions.any fun s => decide (s.session_id = t.session_id) then
    sessions.map fun s => if s.session_id = t.session_id then t else s
  else t :: sessions

/-- `allocate_for_new_session` (`allocator.rs` lines 501-523): insert the new
session, reallocate the whole station, extract the new session, clamp its
allocation to `hardcap_capacity`.  The `expect` on the extraction is
modelled by `none`. -/
def allocate_for_new_session (innerFuel fuel : Nat) (sessions : List Session)
    (chargers_config : List ChargerConfig) (grid_capacity hardcap_capacity : Nat)
    (new_session : Session) : Option Session :=
  match allocate_power_station innerFuel fuel (insert_session sessions new_session)
      chargers_config grid_capacity with
  | none => none
  | some out =>
    match out.find? fun s => decide (s.session_id = new_session.session_id) with
    | none => none
    | some s => some { s with allocated_power := min s.allocated_power hardcap_capacity }

/-- Session-level error kinds (`lib.rs`, `SessionError`). -/
inductive SessionError where
  | connectorAlreadyInUse (connector_id : ConnectorId)
  | connectorNotFound (connector_id : ConnectorId)
  | sessionNotFound (session_id : Nat)
deriving Repr, DecidableEq

/-- Station state (`lib.rs`, `StationState`). -/
structure StationState where
  config : StationConfig
  sessions : List Session
  chargers : List ChargerConfig
deriving Repr, DecidableEq

/-- `HashMap::insert` semantics for building the charger table: a later
charger with an already-present id overwrites the earlier entry. -/
def insert_charger (table : List ChargerConfig) (c : ChargerConfig) : List ChargerConfig :=
  if table.any fun c0 => decide (c0.id = c.id) then
    table.map fun c0 => if c0.id = c.id then c else c0
  else table ++ [c]

/-- `StationState::new` (`lib.rs` lines 29-40): derive the charger table from
the configuration, start with no session. -/
def StationState.new (config : StationConfig) : StationState :=
  { config := config
    chargers := config.chargers.foldl insert_charger []
    sessions := [] }

/-- `HashMap::get` on the charger table. -/
def lookup_charger (table : List ChargerConfig) (charger_id : String) : Option ChargerConfig :=
  table.find? fun c => decide (c.id = charger_id)

/-- `StationState::station_allocated_power` (`lib.rs` lines 53-58). -/
def StationState.station_allocated_power (st : StationState) : Nat :=
  sum_alloc st.sessions

/-- `StationState::station_remaining_capacity` (`lib.rs` lines 63-65):
`grid_capacity - station_allocated_power` with plain (non-saturating)
`u32` subtraction. -/
def StationState.station_remaining_capacity (st : StationState) : Nat :=
  u32sub st.config.grid_capacity st.station_allocated_power

/-- Sum of allocations on one charger. -/
def charger_allocated (st : StationState) (charger_id : String) : Nat :=
  sum_alloc (st.sessions.filter fun s => decide (s.connector_id.charger_id = charger_id))

/-- `StationState::charger_remaining_capacity` (`lib.rs` lines 72-86):
`max_power - charger sum` (plain `u32` subtraction, `0` for an unknown
charger), capped by the station remaining capacity. -/
def StationState.charger_remaining_capacity (st : StationState) (charger_id : String) : Nat :=
  min
    (match lookup_charger st.chargers charger_id with
     | none => 0
     | some c => u32sub c.max_power (charger_allocated st charger_id))
    st.station_remaining_capacity

/-- `StationState::start_session` (`lib.rs` lines 88-127).  `sid` is the
freshly minted UUID; fuels parameterise the allocator loops, and `none`
models a panic or a diverging allocator call. -/
def StationState.start_session (st : StationState) (connector_id : ConnectorId)
    (vehicle_max_power sid innerFuel fuel : Nat) :
    Option (Except SessionError Session × StationState) :=
  match lookup_charger st.chargers connector_id.charger_id with
  | none => some (.error (.connectorNotFound connector_id), st)
  | some charger =>
    if connector_id.idx = 0 ∨ charger.connectors < connector_id.idx then
      some (.error (.connectorNotFound connector_id), st)
    else if st.sessions.any fun s => decide (s.connector_id = connector_id) then
      some (.error (.connectorAlreadyInUse connector_id), st)
    else
      match allocate_for_new_session innerFuel fuel st.sessions st.chargers
          st.config.grid_capacity
          (st.charger_remaining_capacity connector_id.charger_id)
          { session_id := sid, connector_id := connector_id,
            allocated_power := 0, vehicle_max_power := vehicle_max_power } with
      | none => none
      | some s => some (.ok s, { st with sessions := insert_session st.sessions s })

/-- `StationState::stop_session` (`lib.rs` lines 129-132). -/
def StationState.stop_session (st : StationState) (session_id : Nat) : StationState :=
  { st with sessions := st.sessions.filter fun s => !decide (s.session_id = session_id) }

/-- The working copy `previous_session` of `power_update` (`lib.rs` lines
143-149): when the consumed power is below the allocated power, the
consumed power becomes the new `vehicle_max_power`. -/
def previous_of (found : Session) (consumed_power : Nat) : Session :=
  if consumed_power < found.allocated_power then
    { found with vehicle_max_power := consumed_power }
  else found

/-- `StationState::power_update` (`lib.rs` lines 137-164). -/
def StationState.power_update (st : StationState) (session_id consumed_power innerFuel fuel : Nat) :
    Option (Except SessionError Session × StationState) :=
  match st.sessions.find? fun s => decide (s.session_id = session_id) with
  | none => some (.error (.sessionNotFound session_id), st)
  | some found =>
    match allocate_for_new_session innerFuel fuel st.sessions st.chargers
        st.config.grid_capacity
        (st.charger_remaining_capacity (previous_of found consumed_power).connector_id.charger_id
          + (previous_of found consumed_power).allocated_power)
        (previous_of found consumed_power) with
    | none => none
    | some s => some (.ok s, { st with sessions := insert_session st.sessions s })

/-- States reachable from `StationState::new` by the public operations.
An operation that returns an error leaves the state unchanged (see the
atomicity theorem below), and a call that panics or diverges produces no
successor state, so only `Ok` outcomes appear as transitions.  The
freshness premise on `start` models UUID minting.  Configuration
replacement constructs a fresh `StationState`, i.e. an `init` state. -/
inductive Reachable : StationState → Prop where
  | init (config : StationConfig) : Reachable (StationState.new config)
  | start {st : StationState} {cid : ConnectorId} {vmax sid iF f : Nat}
      {sess : Session} {st' : StationState} :
      Reachable st → (∀ s ∈ st.sessions, s.session_id ≠ sid) →
      st.start_session cid vmax sid iF f = some (.ok sess, st') → Reachable st'
  | stop {st : StationState} (sid : Nat) : Reachable st → Reachable (st.stop_session sid)
  | update {st : StationState} {sid consumed iF f : Nat} {sess : Session} {st' : StationState} :
      Reachable st → st.power_update sid consumed iF f = some (.ok sess, st') → Reachable st'

/-- The connector is invalid for `start_session`: unknown charger, or index
`0`, or index above the charger's connector count (`lib.rs` lines 94-105). -/
def bad_connector (st : StationState) (cid : ConnectorId) : Prop :=
  lookup_charger st.chargers cid.charger_id = none ∨
    ∃ ch, lookup_charger st.chargers cid.charger_id = some ch ∧
      (cid.idx = 0 ∨ ch.connectors < cid.idx)

/-- Some existing session already holds this connector (`lib.rs` lines 107-114). -/
def connector_busy (st : StationState) (cid : ConnectorId) : Prop :=
  ∃ s ∈ st.sessions, s.connector_id = cid

/-- Failing input for termination: two sessions with `vehicle_max_power = 2`
on one charger. -/
def c2_sessions : List Session :=
  [⟨1, ⟨"CP001", 1⟩, 0, 2⟩, ⟨2, ⟨"CP001", 2⟩, 0, 2⟩]

/-- The single charger of the termination counterexample: `max_power = 3`,
odd with respect to its two sessions. -/
def c2_chargers : List ChargerConfig := [⟨"CP001", 3, 2⟩]

/-- The state the connector loop reaches after one round on the failing
input: allocations `1, 1`, remaining power `1`, fair share `1 / 2 = 0`,
so every further round maps the state to itself without exiting. -/
def c2_stuck_sessions : List Session :=
  [⟨1, ⟨"CP001", 1⟩, 1, 2⟩, ⟨2, ⟨"CP001", 2⟩, 1, 2⟩]

/-- The charger table of the spec's concrete scenarios (§8). -/
def scenario_chargers : List ChargerConfig :=
  [⟨"CP001", 200, 2⟩, ⟨"CP002", 200, 2⟩, ⟨"CP003", 300, 2⟩]

/-- The station configuration of the spec's concrete scenarios (§8). -/
def scenario_config : StationConfig :=
  ⟨"ELECTRA_PARIS_15", 400, scenario_chargers, none⟩

/-- The state of scenario 2: sessions CP001:1 (vMax 100, alloc 100),
CP001:2 (vMax 200, alloc 100), CP003:1 (vMax 300, alloc 200),
CP002:1 (vMax 200, alloc 0); grid capacity saturated at 400. -/
def scenario2_state : StationState :=
  { config := scenario_config
    sessions := [⟨1, ⟨"CP001", 1⟩, 100, 100⟩, ⟨2, ⟨"CP001", 2⟩, 100, 200⟩,
                 ⟨3, ⟨"CP003", 1⟩, 200, 300⟩, ⟨4, ⟨"CP002", 1⟩, 0, 200⟩]
    chargers := scenario_chargers }

/-- The state after `powerUpdate(CP001:1, 80)` from `scenario2_state`: only
the updated session changes, to vMax 80 / alloc 80. -/
def scenario2_state_after_first : StationState :=
  { config := scenario_config
    sessions := [⟨1, ⟨"CP001", 1⟩, 80, 80⟩, ⟨2, ⟨"CP001", 2⟩, 100, 200⟩,
                 ⟨3, ⟨"CP003", 1⟩, 200, 300⟩, ⟨4, ⟨"CP002", 1⟩, 0, 200⟩]
    chargers := scenario_chargers }

/-- The state after the subsequent `powerUpdate(CP003:1, 200)`: the CP003
session is reallocated `100` (the fresh station-wide solve splits
400 kW as CP001 `80 + 120`, CP002 `100`, CP003 `100`). -/
def scenario2_state_after_second : StationState :=
  { config := scenario_config
    sessions := [⟨1, ⟨"CP001", 1⟩, 80, 80⟩, ⟨2, ⟨"CP001", 2⟩, 100, 200⟩,
                 ⟨3, ⟨"CP003", 1⟩, 100, 300⟩, ⟨4, ⟨"CP002", 1⟩, 0, 200⟩]
    chargers := scenario_chargers }

/-- The sessions of the cross-charger fairness scenario (spec §8, scenario 6). -/
def c6_sessions : List Session :=
  [⟨1, ⟨"CP001", 1⟩, 0, 80⟩, ⟨2, ⟨"CP001", 2⟩, 0, 150⟩, ⟨3, ⟨"CP002", 1⟩, 0, 150⟩]

/-- The chargers of the cross-charger fairness scenario. -/
def c6_chargers : List ChargerConfig := [⟨"CP001", 200, 2⟩, ⟨"CP002", 200, 2⟩]

/-- A state whose allocation sum (1) exceeds the grid capacity (0);
the claim explicitly quantifies over such states. -/
def c7_state : StationState :=
  { config := ⟨"S", 0, [], none⟩
    sessions := [⟨1, ⟨"CP001", 1⟩, 1, 1⟩]
    chargers := [] }

/-- All strictly-under-max sessions of a list hold equal allocations: the
water-filling invariant behind the within-charger fairness contract. -/
def equal_under (ss : List Session) : Prop :=
  ∀ s ∈ ss, ∀ t ∈ ss, s.allocated_power < s.vehicle_max_power →
    t.allocated_power < t.vehicle_max_power → s.allocated_power = t.allocated_power

/-- Every session in a group is bound to that group's charger. -/
def group_tags_ok (gs : List (ChargerConfig × List Session)) : Prop :=
  ∀ p ∈ gs, ∀ s ∈ p.2, s.connector_id.charger_id = p.1.id

theorem u32sub_of_le {a b : Nat} (h : b ≤ a) : u32sub a b = a - b := by
  simp [u32sub, h]

theorem sum_alloc_nil : sum_alloc [] = 0 := rfl

theorem sum_alloc_cons (s : Session) (ss : List Session) :
    sum_alloc (s :: ss) = s.allocated_power + sum_alloc ss := by
  simp [sum_alloc]

theorem sum_alloc_filter_le (p : Session → Bool) (ss : List Session) :
    sum_alloc (ss.filter p) ≤ sum_alloc ss := by
  induction ss with
  | nil => simp [sum_alloc]
  | cons s rest ih =>
    by_cases h : p s <;> simp [List.filter_cons, h, sum_alloc_cons] <;> omega

theorem mem_alloc_le_sum {s : Session} {ss : List Session} (h : s ∈ ss) :
    s.allocated_power ≤ sum_alloc ss := by
  induction ss with
  | nil => cases h
  | cons t rest ih =>
    rcases List.mem_cons.mp h with rfl | hmem
    · simp [sum_alloc_cons]
    · have := ih hmem
      simp [sum_alloc_cons]
      omega

theorem station_remaining_eq {st : StationState}
    (h : sum_alloc st.sessions ≤ st.config.grid_capacity) :
    st.station_remaining_capacity = st.config.grid_capacity - sum_alloc st.sessions := by
  simp [StationState.station_remaining_capacity, StationState.station_allocated_power,
    u32sub_of_le h]

theorem charger_remaining_le (st : StationState) (charger_id : String) :
    st.charger_remaining_capacity charger_id ≤ st.station_remaining_capacity :=
  Nat.min_le_right _ _

theorem allocate_for_new_session_some {iF f : Nat} {sessions : List Session}
    {chargers : List ChargerConfig} {grid hardcap : Nat} {ns s : Session}
    (h : allocate_for_new_session iF f sessions chargers grid hardcap ns = some s) :
    s.session_id = ns.session_id ∧ s.allocated_power ≤ hardcap := by
  unfold allocate_for_new_session at h
  split at h
  · exact absurd h (by simp)
  · rename_i out hout
    split at h
    · exact absurd h (by simp)
    · rename_i s0 hfind
      have hpred := List.find?_some hfind
      simp only [decide_eq_true_eq] at hpred
      obtain rfl := Option.some.inj h
      exact ⟨hpred, Nat.min_le_right _ _⟩

theorem insert_session_fresh {ss : List Session} {t : Session}
    (h : ∀ s ∈ ss, s.session_id ≠ t.session_id) :
    insert_session ss t = t :: ss := by
  have hc : (ss.any fun s => decide (s.session_id = t.session_id)) = false := by
    simp only [List.any_eq_false, decide_eq_true_eq]
    exact h
  simp [insert_session, hc]

theorem insert_session_replace {ss : List Session} {t p0 : Session}
    (hmem : p0 ∈ ss) (hid : p0.session_id = t.session_id) :
    insert_session ss t = ss.map fun s => if s.session_id = t.session_id then t else s := by
  unfold insert_session
  rw [if_pos]
  simp only [List.any_eq_true, decide_eq_true_eq]
  exact ⟨p0, hmem, hid⟩

theorem ids_replace (ss : List Session) (t : Session) :
    ((ss.map fun s => if s.session_id = t.session_id then t else s).map Session.session_id)
      = ss.map Session.session_id := by
  rw [List.map_map]
  refine List.map_congr_left fun s _ => ?_
  by_cases h : s.session_id = t.session_id <;> simp [h]

theorem sum_alloc_replace {ss : List Session} {t p0 : Session}
    (hnd : (ss.map Session.session_id).Nodup) (hmem : p0 ∈ ss)
    (hid : p0.session_id = t.session_id) :
    sum_alloc (ss.map fun s => if s.session_id = t.session_id then t else s)
        + p0.allocated_power
      = sum_alloc ss + t.allocated_power := by
  induction ss with
  | nil => cases hmem
  | cons s rest ih =>
    simp only [List.map_cons, List.nodup_cons] at hnd
    obtain ⟨hnotin, hndr⟩ := hnd
    rcases List.mem_cons.mp hmem with rfl | hmemr
    · simp only [List.map_cons]
      rw [if_pos hid]
      have : rest.map (fun s => if s.session_id = t.session_id then t else s) = rest := by
        conv_rhs => rw [← List.map_id rest]
        refine List.map_congr_left fun u hu => ?_
        simp only [id_eq]
        rw [if_neg]
        intro hequ
        apply hnotin
        rw [hid, ← hequ]
        exact List.mem_map_of_mem Session.session_id hu
      rw [this, sum_alloc_cons, sum_alloc_cons]
      omega
    · have hs : s.session_id ≠ t.session_id := by
        intro heq
        apply hnotin
        rw [heq, ← hid]
        exact List.mem_map_of_mem Session.session_id hmemr
      simp only [List.map_cons]
      rw [if_neg hs, sum_alloc_cons, sum_alloc_cons]
      have := ih hndr hmemr
      omega

theorem start_session_ok {st : StationState} {cid : ConnectorId} {vmax sid iF f : Nat}
    {sess : Session} {st' : StationState}
    (h : st.start_session cid vmax sid iF f = some (.ok sess, st')) :
    sess.session_id = sid ∧ sess.allocated_power ≤ st.station_remaining_capacity ∧
      st' = { st with sessions := insert_session st.sessions sess } := by
  unfold StationState.start_session at h
  split at h
  · simp at h
  · split at h
    · simp at h
    · split at h
      · simp at h
      · split at h
        · exact absurd h (by simp)
        · rename_i s0 halloc
          obtain ⟨h1, h2⟩ := Prod.mk.injEq .. ▸ Option.some.inj h
          obtain rfl := Except.ok.inj h1
          obtain ⟨hid, hle⟩ := allocate_for_new_session_some halloc
          exact ⟨hid, le_trans hle (charger_remaining_le st _), h2.symm⟩

theorem previous_of_allocated (found : Session) (consumed : Nat) :
    (previous_of found consumed).allocated_power = found.allocated_power := by
  unfold previous_of
  split <;> rfl

theorem previous_of_session_id (found : Session) (consumed : Nat) :
    (previous_of found consumed).session_id = found.session_id := by
  unfold previous_of
  split <;> rfl

theorem power_update_ok {st : StationState} {sid consumed iF f : Nat}
    {sess : Session} {st' : StationState}
    (h : st.power_update sid consumed iF f = some (.ok sess, st')) :
    ∃ found ∈ st.sessions, found.session_id = sid ∧ sess.session_id = sid ∧
      sess.allocated_power ≤ st.station_remaining_capacity + found.allocated_power ∧
      st' = { st with sessions := insert_session st.sessions sess } := by
  unfold StationState.power_update at h
  split at h
  · simp at h
  · rename_i found hfind
    split at h
    · exact absurd h (by simp)
    · rename_i s0 halloc
      obtain ⟨h1, h2⟩ := Prod.mk.injEq .. ▸ Option.some.inj h
      obtain rfl := Except.ok.inj h1
      have hfmem := List.mem_of_find?_eq_some hfind
      have hfid : found.session_id = sid := by
        have := List.find?_some hfind
        simpa using this
      obtain ⟨hid, hle⟩ := allocate_for_new_session_some halloc
      refine ⟨found, hfmem, hfid, ?_, ?_, h2.symm⟩
      · rw [hid, previous_of_session_id, hfid]
      · rw [previous_of_allocated] at hle
        refine le_trans hle ?_
        exact Nat.add_le_add_right (charger_remaining_le st _) _

theorem reachable_inv {st : StationState} (h : Reachable st) :
    (st.sessions.map Session.session_id).Nodup ∧
      sum_alloc st.sessions ≤ st.config.grid_capacity := by
  induction h with
  | init config => simp [StationState.new, sum_alloc]
  | start hr hfresh hstep ih =>
    obtain ⟨hnd, hsum⟩ := ih
    obtain ⟨hid, hle, rfl⟩ := start_session_ok hstep
    dsimp only
    rw [insert_session_fresh (fun s hs => by rw [hid]; exact hfresh s hs)]
    refine ⟨?_, ?_⟩
    · simp only [List.map_cons, List.nodup_cons]
      refine ⟨?_, hnd⟩
      simp only [List.mem_map, not_exists, not_and]
      intro s hs heq
      exact hfresh s hs (by rw [← hid]; exact heq)
    · rw [sum_alloc_cons]
      rw [station_remaining_eq hsum] at hle
      omega
  | stop sid hr ih =>
    obtain ⟨hnd, hsum⟩ := ih
    refine ⟨?_, ?_⟩
    · exact List.Nodup.sublist (List.Sublist.map _ (List.filter_sublist _)) hnd
    · exact le_trans (sum_alloc_filter_le _ _) hsum
  | update hr hstep ih =>
    obtain ⟨hnd, hsum⟩ := ih
    obtain ⟨found, hfmem, hfid, hsid, hle, rfl⟩ := power_update_ok hstep
    dsimp only
    rw [insert_session_replace hfmem (hfid.trans hsid.symm)]
    refine ⟨?_, ?_⟩
    · rw [ids_replace]
      exact hnd
    · have hrepl := sum_alloc_replace hnd hfmem (hfid.trans hsid.symm)
      have hfle := mem_alloc_le_sum hfmem
      rw [station_remaining_eq hsum] at hle
      omega

/-- C1: For every `StationState` reachable from `StationState::new(config)`
by any sequence of `start_session`, `stop_session`, `power_update` and
configuration replacement, the sum of `allocated_power` over all sessions
in the registry is at most `config.gridCapacity`. -/
theorem grid_capacity_invariant {st : StationState} (h : Reachable st) :
    sum_alloc st.sessions ≤ st.config.grid_capacity :=
  (reachable_inv h).2

/-- Witness for C1 at a concrete reachable state. -/
theorem grid_capacity_invariant_witness :
    sum_alloc (StationState.new ⟨"S", 400, [⟨"CP001", 200, 2⟩], none⟩).sessions
      ≤ (StationState.new ⟨"S", 400, [⟨"CP001", 200, 2⟩], none⟩).config.grid_capacity :=
  grid_capacity_invariant (Reachable.init _)

theorem c2_connector_stuck : ∀ fuel, connector_loop fuel 3 c2_stuck_sessions = none := by
  intro fuel
  induction fuel with
  | zero => rfl
  | succ n ih => exact ih

theorem c2_allocate_connector_none (innerFuel : Nat) :
    allocate_connector innerFuel c2_sessions 3 = none := by
  cases innerFuel with
  | zero => rfl
  | succ n => exact c2_connector_stuck n

theorem c2_station_loop_none (innerFuel fuel : Nat) :
    station_loop innerFuel fuel 100 (group_sessions c2_chargers c2_sessions) = none := by
  cases fuel with
  | zero => rfl
  | succ n =>
    have hconn := c2_allocate_connector_none innerFuel
    have h0 : update_groups innerFuel 50 (group_sessions c2_chargers c2_sessions) =
        match (allocate_connector innerFuel c2_sessions 3).map
            (fun ss => ((⟨"CP001", 3, 2⟩ : ChargerConfig), ss)),
          (some [] : Option (List (ChargerConfig × List Session))) with
        | some q, some rest2 => some (q :: rest2)
        | _, _ => none := rfl
    rw [hconn] at h0
    have hstep : station_loop innerFuel (n + 1) 100 (group_sessions c2_chargers c2_sessions) =
        match update_groups innerFuel 50 (group_sessions c2_chargers c2_sessions) with
        | some gs2 => station_loop innerFuel n 100 gs2
        | none => none := rfl
    rw [hstep, h0]
    rfl

/-- C2: the claim states that `allocate_power_station` terminates on every
input because every round strictly increases the total allocation or
shrinks the active set, the loop stopping when the per-session share
reaches `0`.  The code has no such stop: on the input above (two sessions
with `vehicle_max_power = 2` on a charger with `max_power = 3`, station
ceiling `100`) the connector loop reaches allocations `1, 1` with remaining
power `1` and fair share `0`, and then repeats that exact state forever.
In the fuel embedding the run returns `none` for every fuel, i.e. the Rust
`loop` never exits. -/
theorem allocate_power_station_diverges (innerFuel fuel : Nat) :
    allocate_power_station innerFuel fuel c2_sessions c2_chargers 100 = none := by
  unfold allocate_power_station
  rw [c2_station_loop_none]
  rfl

/-- C3 counterexample: from the scenario-2 state (which includes the
CP002:1 session stuck at `0`), `powerUpdate(CP001:1, 80)` does return
vMax 80 / alloc 80 as claimed, but the subsequent `powerUpdate(CP003:1,
200)` returns `allocatedPower = 100`, not the claimed `200`: the fresh
solve gives the CP003 charger only one quarter of the 400 kW ceiling
because the zero-allocation CP002:1 session also counts as a demanding
session. -/
theorem scenario5_second_update_returns_100 :
    scenario2_state.power_update 1 80 12 12
        = some (.ok ⟨1, ⟨"CP001", 1⟩, 80, 80⟩, scenario2_state_after_first)
      ∧ scenario2_state_after_first.power_update 3 200 12 12
        = some (.ok ⟨3, ⟨"CP003", 1⟩, 100, 300⟩, scenario2_state_after_second)
      ∧ (100 : Nat) ≠ 200 :=
  ⟨rfl, rfl, by decide⟩

/-- C3 (amended): from the scenario-2 state, `powerUpdate(CP001:1, 80)`
returns vehicleMaxPower 80 and allocatedPower 80, and the subsequent
`powerUpdate(CP003:1, 200)` returns vehicleMaxPower 300 and
allocatedPower `100` (not 200 as the spec scenario says), with the
update's hardcap computed as
`chargerRemainingCapacity("CP003") + session.allocatedPower = 20 + 200`. -/
theorem scenario5_updates_amended :
    scenario2_state.power_update 1 80 12 12
        = some (.ok ⟨1, ⟨"CP001", 1⟩, 80, 80⟩, scenario2_state_after_first)
      ∧ scenario2_state_after_first.power_update 3 200 12 12
        = some (.ok ⟨3, ⟨"CP003", 1⟩, 100, 300⟩, scenario2_state_after_second)
      ∧ scenario2_state_after_first.charger_remaining_capacity "CP003" + 200 = 220 :=
  ⟨rfl, rfl, rfl⟩

/-- C6: with sessions (CP001:1, vMax 80), (CP001:2, vMax 150),
(CP002:1, vMax 150), station ceiling 330 and both chargers rated 200,
`allocate_power_station` returns allocations 80 / 120 / 130. -/
theorem cross_charger_fairness_scenario :
    allocate_power_station 12 12 c6_sessions c6_chargers 330
      = some [⟨1, ⟨"CP001", 1⟩, 80, 80⟩, ⟨2, ⟨"CP001", 2⟩, 120, 150⟩,
              ⟨3, ⟨"CP002", 1⟩, 130, 150⟩] :=
  rfl

/-- C7: the claim says `stationRemainingCapacity = gridCapacity − Σ
allocations` saturates at `0` on every state, including states whose
allocation sums exceed the capacities.  The code uses plain `u32`
subtraction (`lib.rs` line 64), which wraps in release mode (and panics in
debug mode) instead: on a state with grid capacity `0` and one session
holding `1` kW it yields `2^32 − 1`, not `0`. -/
theorem station_remaining_capacity_underflows :
    c7_state.station_remaining_capacity = 4294967295
      ∧ c7_state.station_remaining_capacity ≠ 0 :=
  ⟨rfl, by decide⟩

/-- C8: for every state and call, `start_session` returns
`ConnectorNotFound` iff the charger is absent or the index is `0` or above
the charger's connector count; `ConnectorAlreadyInUse` iff the connector is
valid and some existing session holds it; otherwise `Ok` with the newly
admitted session (stated over every call that returns, i.e. whose
allocator solve finishes within the given fuel). -/
theorem start_session_error_conditions {st : StationState} {cid : ConnectorId}
    {vmax sid iF f : Nat} {r : Except SessionError Session} {st' : StationState}
    (h : st.start_session cid vmax sid iF f = some (r, st')) :
    (r = .error (.connectorNotFound cid) ↔ bad_connector st cid)
      ∧ (r = .error (.connectorAlreadyInUse cid)
          ↔ ¬bad_connector st cid ∧ connector_busy st cid)
      ∧ ((∃ sess, r = .ok sess) ↔ ¬bad_connector st cid ∧ ¬connector_busy st cid) := by
  unfold StationState.start_session at h
  split at h
  · rename_i hlk
    obtain ⟨h1, _⟩ := Prod.mk.injEq .. ▸ Option.some.inj h
    subst h1
    have hbadc : bad_connector st cid := Or.inl hlk
    refine ⟨⟨fun _ => hbadc, fun _ => rfl⟩,
      ⟨fun hr => ?_, fun hp => absurd hbadc hp.1⟩,
      ⟨fun hr => ?_, fun hp => absurd hbadc hp.1⟩⟩
    · simp at hr
    · obtain ⟨sess, hsess⟩ := hr
      simp at hsess
  · rename_i charger hlk
    split at h
    · rename_i hidx
      obtain ⟨h1, _⟩ := Prod.mk.injEq .. ▸ Option.some.inj h
      subst h1
      have hbadc : bad_connector st cid := Or.inr ⟨charger, hlk, hidx⟩
      refine ⟨⟨fun _ => hbadc, fun _ => rfl⟩,
        ⟨fun hr => ?_, fun hp => absurd hbadc hp.1⟩,
        ⟨fun hr => ?_, fun hp => absurd hbadc hp.1⟩⟩
      · simp at hr
      · obtain ⟨sess, hsess⟩ := hr
        simp at hsess
    · rename_i hidx
      have hnb : ¬bad_connector st cid := by
        rintro (hnone | ⟨ch, hch, hbad2⟩)
        · rw [hlk] at hnone
          cases hnone
        · rw [hlk] at hch
          obtain rfl := Option.some.inj hch
          exact hidx hbad2
      split at h
      · rename_i hbusy
        obtain ⟨h1, _⟩ := Prod.mk.injEq .. ▸ Option.some.inj h
        subst h1
        have hb : connector_busy st cid := by
          simpa [connector_busy, List.any_eq_true] using hbusy
        refine ⟨⟨fun hr => ?_, fun hbad => absurd hbad hnb⟩,
          ⟨fun _ => ⟨hnb, hb⟩, fun _ => rfl⟩,
          ⟨fun hr => ?_, fun hp => absurd hb hp.2⟩⟩
        · simp at hr
        · obtain ⟨sess, hsess⟩ := hr
          simp at hsess
      · rename_i hbusy
        have hb : ¬connector_busy st cid := by
          simpa [connector_busy, List.any_eq_true] using hbusy
        split at h
        · exact absurd h (by simp)
        · rename_i s0 halloc
          obtain ⟨h1, _⟩ := Prod.mk.injEq .. ▸ Option.some.inj h
          subst h1
          refine ⟨⟨fun hr => ?_, fun hbad => absurd hbad hnb⟩,
            ⟨fun hr => ?_, fun hp => absurd hp.2 hb⟩,
            ⟨fun _ => ⟨hnb, hb⟩, fun _ => ⟨s0, rfl⟩⟩⟩
          · simp at hr
          · simp at hr

/-- Witness for C8: calling `start_session` on an unknown charger id. -/
theorem start_session_error_conditions_witness :
    ((Except.error (SessionError.connectorNotFound ⟨"NOPE", 1⟩) : Except SessionError Session)
          = .error (.connectorNotFound ⟨"NOPE", 1⟩)
        ↔ bad_connector (StationState.new scenario_config) ⟨"NOPE", 1⟩)
      ∧ ((Except.error (SessionError.connectorNotFound ⟨"NOPE", 1⟩) : Except SessionError Session)
            = .error (.connectorAlreadyInUse ⟨"NOPE", 1⟩)
          ↔ ¬bad_connector (StationState.new scenario_config) ⟨"NOPE", 1⟩
              ∧ connector_busy (StationState.new scenario_config) ⟨"NOPE", 1⟩)
      ∧ ((∃ sess, (Except.error (SessionError.connectorNotFound ⟨"NOPE", 1⟩)
              : Except SessionError Session) = .ok sess)
          ↔ ¬bad_connector (StationState.new scenario_config) ⟨"NOPE", 1⟩
              ∧ ¬connector_busy (StationState.new scenario_config) ⟨"NOPE", 1⟩) :=
  @start_session_error_conditions (StationState.new scenario_config) ⟨"NOPE", 1⟩ 50 9 5 5
    (.error (.connectorNotFound ⟨"NOPE", 1⟩)) (StationState.new scenario_config) rfl

/-- C9: frame property of admission: when `start_session` returns `Ok`,
every session that existed before the call keeps all its fields (in
particular its prior `allocated_power`), and the only change to the
registry is the insertion of the one new session; configuration and
charger table are untouched. -/
theorem start_session_frame {st : StationState} {cid : ConnectorId} {vmax sid iF f : Nat}
    {sess : Session} {st' : StationState}
    (hfresh : ∀ s ∈ st.sessions, s.session_id ≠ sid)
    (h : st.start_session cid vmax sid iF f = some (.ok sess, st')) :
    st'.sessions = sess :: st.sessions ∧ st'.config = st.config
      ∧ st'.chargers = st.chargers := by
  obtain ⟨hid, _, rfl⟩ := start_session_ok h
  refine ⟨?_, rfl, rfl⟩
  dsimp only
  exact insert_session_fresh fun s hs => by rw [hid]; exact hfresh s hs

/-- Witness for C9: admitting a first session on a fresh station. -/
theorem start_session_frame_witness :
    (⟨scenario_config, [⟨9, ⟨"CP001", 1⟩, 50, 50⟩], scenario_chargers⟩ : StationState).sessions
        = ⟨9, ⟨"CP001", 1⟩, 50, 50⟩ :: (StationState.new scenario_config).sessions
      ∧ (⟨scenario_config, [⟨9, ⟨"CP001", 1⟩, 50, 50⟩], scenario_chargers⟩
            : StationState).config = (StationState.new scenario_config).config
      ∧ (⟨scenario_config, [⟨9, ⟨"CP001", 1⟩, 50, 50⟩], scenario_chargers⟩
            : StationState).chargers = (StationState.new scenario_config).chargers :=
  @start_session_frame (StationState.new scenario_config) ⟨"CP001", 1⟩ 50 9 10 10
    ⟨9, ⟨"CP001", 1⟩, 50, 50⟩
    ⟨scenario_config, [⟨9, ⟨"CP001", 1⟩, 50, 50⟩], scenario_chargers⟩
    (fun s hs => absurd hs (List.not_mem_nil s)) rfl

/-- C10: atomicity on error: whenever `start_session` returns
`ConnectorNotFound` or `ConnectorAlreadyInUse`, or `power_update` returns
`SessionNotFound`, the whole `StationState` (configuration, charger table
and session registry) is exactly as it was before the call. -/
theorem error_atomicity {st st' : StationState} {cid : ConnectorId}
    {vmax sid iF f sid2 consumed : Nat} {e e2 : SessionError}
    (h : st.start_session cid vmax sid iF f = some (.error e, st')
        ∨ st.power_update sid2 consumed iF f = some (.error e2, st')) :
    st' = st := by
  rcases h with h | h
  · unfold StationState.start_session at h
    split at h
    · obtain ⟨_, h2⟩ := Prod.mk.injEq .. ▸ Option.some.inj h
      exact h2.symm
    · split at h
      · obtain ⟨_, h2⟩ := Prod.mk.injEq .. ▸ Option.some.inj h
        exact h2.symm
      · split at h
        · obtain ⟨_, h2⟩ := Prod.mk.injEq .. ▸ Option.some.inj h
          exact h2.symm
        · split at h
          · exact absurd h (by simp)
          · obtain ⟨h1, _⟩ := Prod.mk.injEq .. ▸ Option.some.inj h
            simp at h1
  · unfold StationState.power_update at h
    split at h
    · obtain ⟨_, h2⟩ := Prod.mk.injEq .. ▸ Option.some.inj h
      exact h2.symm
    · split at h
      · exact absurd h (by simp)
      · obtain ⟨h1, _⟩ := Prod.mk.injEq .. ▸ Option.some.inj h
        simp at h1

/-- Witness for C10: a `ConnectorNotFound` call leaves the state unchanged. -/
theorem error_atomicity_witness :
    StationState.new scenario_config = StationState.new scenario_config :=
  @error_atomicity (StationState.new scenario_config) (StationState.new scenario_config)
    ⟨"NOPE", 1⟩ 50 9 5 5 7 0 (.connectorNotFound ⟨"NOPE", 1⟩) (.sessionNotFound 7)
    (Or.inl rfl)

theorem zero_alloc_add_fair (k : Nat) (s : Session) :
    zero_alloc (add_fair k s) = zero_alloc s := by
  unfold add_fair zero_alloc
  split <;> rfl

theorem zero_alloc_idem (s : Session) : zero_alloc (zero_alloc s) = zero_alloc s := rfl

theorem map_zero_alloc_idem (ss : List Session) :
    (ss.map zero_alloc).map zero_alloc = ss.map zero_alloc := by
  rw [List.map_map]
  rfl

theorem connector_loop_skeleton {fuel cap : Nat} {ss out : List Session}
    (h : connector_loop fuel cap ss = some out) :
    out.map zero_alloc = ss.map zero_alloc := by
  induction fuel generalizing ss with
  | zero => cases h
  | succ n ih =>
    rw [connector_loop] at h
    split at h
    · obtain rfl := Option.some.inj h
      rfl
    · have := ih h
      rw [this, List.map_map]
      refine List.map_congr_left fun s _ => ?_
      exact zero_alloc_add_fair _ s

theorem allocate_connector_skeleton {fuel cap : Nat} {ss out : List Session}
    (h : allocate_connector fuel ss cap = some out) :
    out.map zero_alloc = ss.map zero_alloc := by
  have := connector_loop_skeleton h
  rw [this, map_zero_alloc_idem]

theorem update_groups_skeleton {innerFuel fair : Nat}
    {gs gs2 : List (ChargerConfig × List Session)}
    (h : update_groups innerFuel fair gs = some gs2) :
    gs2.map (fun p => (p.1, p.2.map zero_alloc)) = gs.map (fun p => (p.1, p.2.map zero_alloc)) := by
  induction gs generalizing gs2 with
  | nil =>
    obtain rfl := Option.some.inj h
    rfl
  | cons p rest ih =>
    rw [update_groups] at h
    split at h
    · rename_i q rest2 hq hrest
      obtain rfl := Option.some.inj h
      simp only [List.map_cons]
      refine congrArg₂ _ ?_ (ih hrest)
      split at hq
      · rename_i hact
        cases hconn : allocate_connector innerFuel p.2
            (min (sum_alloc p.2 + under_count p.2 * fair) p.1.max_power) with
        | none => rw [hconn] at hq; cases hq
        | some ss2 =>
          rw [hconn] at hq
          obtain rfl := Option.some.inj hq
          exact Prod.ext rfl (allocate_connector_skeleton hconn)
      · obtain rfl := Option.some.inj hq
        rfl
    · cases h

theorem station_loop_skeleton {innerFuel fuel cap : Nat}
    {gs gs2 : List (ChargerConfig × List Session)}
    (h : station_loop innerFuel fuel cap gs = some gs2) :
    gs2.map (fun p => (p.1, p.2.map zero_alloc)) = gs.map (fun p => (p.1, p.2.map zero_alloc)) := by
  induction fuel generalizing gs with
  | zero => cases h
  | succ n ih =>
    rw [station_loop] at h
    split at h
    · obtain rfl := Option.some.inj h
      rfl
    · simp only [] at h
      split at h
      · obtain rfl := Option.some.inj h
        rfl
      · split at h
        · rename_i gsmid hupd
          exact (ih h).trans (update_groups_skeleton hupd)
        · cases h

theorem flatten_map_skel (gs : List (ChargerConfig × List Session)) :
    flatten_sessions (gs.map fun p => (p.1, p.2.map zero_alloc))
      = (flatten_sessions gs).map zero_alloc := by
  induction gs with
  | nil => rfl
  | cons p rest ih =>
    simp only [List.map_cons, flatten_sessions, List.map_append, ih]

theorem filter_charger_map_zero (cid : String) (ss : List Session) :
    (ss.map zero_alloc).filter (fun s => decide (s.connector_id.charger_id = cid))
      = (ss.filter fun s => decide (s.connector_id.charger_id = cid)).map zero_alloc := by
  induction ss with
  | nil => rfl
  | cons s rest ih =>
    by_cases hc : s.connector_id.charger_id = cid <;>
      simp [List.filter_cons, zero_alloc, hc, ih]

theorem charger_sessions_of_id_eq {c0 c : ChargerConfig} (S : List Session)
    (h : c0.id = c.id) : charger_sessions_of S c0 = charger_sessions_of S c := by
  unfold charger_sessions_of
  rw [h]

theorem mem_charger_sessions_of {s : Session} {S : List Session} {c : ChargerConfig}
    (h : s ∈ charger_sessions_of S c) : s.connector_id.charger_id = c.id := by
  unfold charger_sessions_of at h
  obtain ⟨s0, hs0, rfl⟩ := List.mem_map.mp h
  have := (List.mem_filter.mp hs0).2
  simp only [decide_eq_true_eq] at this
  simpa [zero_alloc] using this

theorem flatten_group_cons (c0 : ChargerConfig) (rest : List ChargerConfig)
    (S : List Session) :
    flatten_sessions (group_sessions (c0 :: rest) S)
      = charger_sessions_of S c0 ++ flatten_sessions (group_sessions rest S) := by
  unfold group_sessions
  simp only [List.map_cons, List.filter_cons]
  cases hg : charger_sessions_of S c0 with
  | nil => simp [hg, flatten_sessions]
  | cons a l =>
    simp only [hg, List.isEmpty_cons, Bool.not_false, if_pos]
    simp [flatten_sessions, hg]

theorem filter_charger_group_self {c0 c : ChargerConfig} (S : List Session)
    (h : c0.id = c.id) :
    ((charger_sessions_of S c0).filter fun s => decide (s.connector_id.charger_id = c.id))
      = charger_sessions_of S c0 := by
  refine List.filter_eq_self.mpr fun s hs => ?_
  have := mem_charger_sessions_of hs
  simp [this, h]

theorem filter_charger_group_other {c0 c : ChargerConfig} (S : List Session)
    (h : ¬c0.id = c.id) :
    ((charger_sessions_of S c0).filter fun s => decide (s.connector_id.charger_id = c.id))
      = [] := by
  refine List.filter_eq_nil_iff.mpr fun s hs => ?_
  have := mem_charger_sessions_of hs
  simp [this, h]

theorem filter_charger_flatten_nil {C : List ChargerConfig} {c : ChargerConfig}
    (S : List Session) (h : ∀ c2 ∈ C, c2.id ≠ c.id) :
    ((flatten_sessions (group_sessions C S)).filter
        fun s => decide (s.connector_id.charger_id = c.id))
      = [] := by
  induction C with
  | nil => rfl
  | cons c0 rest ih =>
    rw [flatten_group_cons, List.filter_append,
      filter_charger_group_other S (h c0 (List.mem_cons_self c0 rest)),
      ih fun c2 hc2 => h c2 (List.mem_cons_of_mem c0 hc2)]
    rfl

theorem regroup_eq {C : List ChargerConfig} {c : ChargerConfig} (S : List Session)
    (hnd : (C.map ChargerConfig.id).Nodup) (hc : c ∈ C) :
    ((flatten_sessions (group_sessions C S)).filter
        fun s => decide (s.connector_id.charger_id = c.id))
      = charger_sessions_of S c := by
  induction C with
  | nil => cases hc
  | cons c0 rest ih =>
    simp only [List.map_cons, List.nodup_cons] at hnd
    obtain ⟨hnotin, hndr⟩ := hnd
    rw [flatten_group_cons, List.filter_append]
    by_cases h0 : c0.id = c.id
    · rw [filter_charger_group_self S h0, charger_sessions_of_id_eq S h0]
      have hrest : ∀ c2 ∈ rest, c2.id ≠ c.id := by
        intro c2 hc2 heq
        exact hnotin (h0 ▸ heq ▸ List.mem_map_of_mem ChargerConfig.id hc2)
      rw [filter_charger_flatten_nil S hrest, List.append_nil]
    · rw [filter_charger_group_other S h0, List.nil_append]
      have hcr : c ∈ rest := by
        rcases List.mem_cons.mp hc with rfl | hr
        · exact absurd rfl h0
        · exact hr
      exact ih hndr hcr

theorem charger_sessions_of_station_loop {innerFuel fuel k : Nat}
    {C : List ChargerConfig} {S : List Session}
    {gs2 : List (ChargerConfig × List Session)}
    (hnd : (C.map ChargerConfig.id).Nodup)
    (h : station_loop innerFuel fuel k (group_sessions C S) = some gs2)
    {c : ChargerConfig} (hc : c ∈ C) :
    charger_sessions_of (flatten_sessions gs2) c = charger_sessions_of S c := by
  have hsk := station_loop_skeleton h
  have h1 : (flatten_sessions gs2).map zero_alloc
      = (flatten_sessions (group_sessions C S)).map zero_alloc := by
    rw [← flatten_map_skel, ← flatten_map_skel, hsk]
  show ((flatten_sessions gs2).filter _).map zero_alloc = charger_sessions_of S c
  rw [← filter_charger_map_zero, h1, filter_charger_map_zero, regroup_eq S hnd hc]
  unfold charger_sessions_of
  exact map_zero_alloc_idem _

theorem group_sessions_congr {C : List ChargerConfig} {X Y : List Session}
    (h : ∀ c ∈ C, charger_sessions_of X c = charger_sessions_of Y c) :
    group_sessions C X = group_sessions C Y := by
  unfold group_sessions
  have : C.map (fun c => (c, charger_sessions_of X c))
      = C.map (fun c => (c, charger_sessions_of Y c)) :=
    List.map_congr_left fun c hc => by rw [h c hc]
  rw [this]

/-- C4: the allocator is idempotent: whenever `allocate_power_station`
returns a session set, re-running it on its own output with the same
charger table and station ceiling returns exactly the same output (the
charger ids are distinct, as `HashMap` keys are).  The proof: the
allocator zeroes every allocation before solving, and its output preserves
every field except `allocated_power`, so regrouping the output yields the
same zeroed per-charger state as regrouping the input. -/
theorem allocate_power_station_idempotent {innerFuel fuel k : Nat}
    {S out : List Session} {C : List ChargerConfig}
    (hnd : (C.map ChargerConfig.id).Nodup)
    (h : allocate_power_station innerFuel fuel S C k = some out) :
    allocate_power_station innerFuel fuel out C k = some out := by
  unfold allocate_power_station at h ⊢
  cases hsl : station_loop innerFuel fuel k (group_sessions C S) with
  | none =>
    rw [hsl] at h
    cases h
  | some gs2 =>
    rw [hsl] at h
    simp only [Option.map_some'] at h
    obtain rfl := Option.some.inj h
    have hgr : group_sessions C (flatten_sessions gs2) = group_sessions C S :=
      group_sessions_congr fun c hc => charger_sessions_of_station_loop hnd hsl hc
    rw [hgr, hsl, Option.map_some']

/-- Witness for C4: re-running the allocator on the output of the
cross-charger scenario reproduces that output. -/
theorem allocate_power_station_idempotent_witness :
    allocate_power_station 12 12
        [⟨1, ⟨"CP001", 1⟩, 80, 80⟩, ⟨2, ⟨"CP001", 2⟩, 120, 150⟩,
         ⟨3, ⟨"CP002", 1⟩, 130, 150⟩] c6_chargers 330
      = some [⟨1, ⟨"CP001", 1⟩, 80, 80⟩, ⟨2, ⟨"CP001", 2⟩, 120, 150⟩,
              ⟨3, ⟨"CP002", 1⟩, 130, 150⟩] :=
  @allocate_power_station_idempotent 12 12 330 c6_sessions
    [⟨1, ⟨"CP001", 1⟩, 80, 80⟩, ⟨2, ⟨"CP001", 2⟩, 120, 150⟩,
     ⟨3, ⟨"CP002", 1⟩, 130, 150⟩] c6_chargers (by decide) rfl

theorem equal_under_map_zero (ss : List Session) : equal_under (ss.map zero_alloc) := by
  intro s hs t ht _ _
  obtain ⟨s0, _, rfl⟩ := List.mem_map.mp hs
  obtain ⟨t0, _, rfl⟩ := List.mem_map.mp ht
  rfl

theorem add_fair_under {k : Nat} {s : Session}
    (h : (add_fair k s).allocated_power < (add_fair k s).vehicle_max_power) :
    s.allocated_power < s.vehicle_max_power
      ∧ (add_fair k s).allocated_power = s.allocated_power + k := by
  unfold add_fair at h ⊢
  by_cases hu : under_max s
  · rw [if_pos hu] at h ⊢
    simp only at h
    have hlt : s.allocated_power + k < s.vehicle_max_power := by
      rcases Nat.lt_or_ge (s.allocated_power + k) s.vehicle_max_power with hlt | hge
      · exact hlt
      · rw [Nat.min_eq_right hge] at h
        omega
    refine ⟨?_, ?_⟩
    · omega
    · simp [Nat.min_eq_left (Nat.le_of_lt hlt)]
  · rw [if_neg hu] at h
    unfold under_max at hu
    simp only [decide_eq_true_eq] at hu
    omega

theorem equal_under_add_fair {k : Nat} {ss : List Session} (h : equal_under ss) :
    equal_under (ss.map (add_fair k)) := by
  intro s2 hs2 t2 ht2 hsu htu
  obtain ⟨s, hs, rfl⟩ := List.mem_map.mp hs2
  obtain ⟨t, ht, rfl⟩ := List.mem_map.mp ht2
  obtain ⟨hsund, hseq⟩ := add_fair_under hsu
  obtain ⟨htund, hteq⟩ := add_fair_under htu
  rw [hseq, hteq, h s hs t ht hsund htund]

theorem connector_loop_equal_under {fuel cap : Nat} {ss out : List Session}
    (h : connector_loop fuel cap ss = some out) (hss : equal_under ss) :
    equal_under out := by
  induction fuel generalizing ss with
  | zero => cases h
  | succ n ih =>
    rw [connector_loop] at h
    split at h
    · obtain rfl := Option.some.inj h
      exact hss
    · exact ih h (equal_under_add_fair hss)

theorem allocate_connector_equal_under {fuel cap : Nat} {ss out : List Session}
    (h : allocate_connector fuel ss cap = some out) : equal_under out :=
  connector_loop_equal_under h (equal_under_map_zero ss)

theorem update_groups_equal_under {innerFuel fair : Nat}
    {gs gs2 : List (ChargerConfig × List Session)}
    (hgs : ∀ p ∈ gs, equal_under p.2)
    (h : update_groups innerFuel fair gs = some gs2) :
    ∀ p ∈ gs2, equal_under p.2 := by
  induction gs generalizing gs2 with
  | nil =>
    obtain rfl := Option.some.inj h
    intro p hp
    cases hp
  | cons p rest ih =>
    rw [update_groups] at h
    split at h
    · rename_i q rest2 hq hrest
      obtain rfl := Option.some.inj h
      intro p2 hp2
      rcases List.mem_cons.mp hp2 with rfl | hmem
      · split at hq
        · cases hconn : allocate_connector innerFuel p.2
              (min (sum_alloc p.2 + under_count p.2 * fair) p.1.max_power) with
          | none => rw [hconn] at hq; cases hq
          | some ss2 =>
            rw [hconn] at hq
            obtain rfl := Option.some.inj hq
            exact allocate_connector_equal_under hconn
        · obtain rfl := Option.some.inj hq
          exact hgs p (List.mem_cons_self p rest)
      · exact ih (fun p3 hp3 => hgs p3 (List.mem_cons_of_mem p hp3)) hrest p2 hmem
    · cases h

theorem station_loop_equal_under {innerFuel fuel cap : Nat}
    {gs gs2 : List (ChargerConfig × List Session)}
    (hgs : ∀ p ∈ gs, equal_under p.2)
    (h : station_loop innerFuel fuel cap gs = some gs2) :
    ∀ p ∈ gs2, equal_under p.2 := by
  induction fuel generalizing gs with
  | zero => cases h
  | succ n ih =>
    rw [station_loop] at h
    split at h
    · obtain rfl := Option.some.inj h
      exact hgs
    · simp only [] at h
      split at h
      · obtain rfl := Option.some.inj h
        exact hgs
      · split at h
        · rename_i gsmid hupd
          exact ih (update_groups_equal_under hgs hupd) h
        · cases h

theorem group_sessions_equal_under (C : List ChargerConfig) (S : List Session) :
    ∀ p ∈ group_sessions C S, equal_under p.2 := by
  intro p hp
  have hp2 := List.mem_of_mem_filter hp
  obtain ⟨c, _, rfl⟩ := List.mem_map.mp hp2
  exact equal_under_map_zero _

theorem group_tags_ok_init (C : List ChargerConfig) (S : List Session) :
    group_tags_ok (group_sessions C S) := by
  intro p hp s hs
  have hp2 := List.mem_of_mem_filter hp
  obtain ⟨c, _, rfl⟩ := List.mem_map.mp hp2
  exact mem_charger_sessions_of hs

theorem map_zero_eq_mem {l1 l2 : List Session} (h : l1.map zero_alloc = l2.map zero_alloc)
    {s : Session} (hs : s ∈ l1) : ∃ t ∈ l2, t.connector_id = s.connector_id := by
  have : zero_alloc s ∈ l2.map zero_alloc := h ▸ List.mem_map_of_mem zero_alloc hs
  obtain ⟨t, ht, hteq⟩ := List.mem_map.mp this
  refine ⟨t, ht, ?_⟩
  have := congrArg Session.connector_id hteq
  simpa [zero_alloc] using this

theorem update_groups_tags {innerFuel fair : Nat}
    {gs gs2 : List (ChargerConfig × List Session)}
    (hgs : group_tags_ok gs) (h : update_groups innerFuel fair gs = some gs2) :
    group_tags_ok gs2 := by
  induction gs generalizing gs2 with
  | nil =>
    obtain rfl := Option.some.inj h
    intro p hp
    cases hp
  | cons p rest ih =>
    rw [update_groups] at h
    split at h
    · rename_i q rest2 hq hrest
      obtain rfl := Option.some.inj h
      intro p2 hp2 s hs
      rcases List.mem_cons.mp hp2 with rfl | hmem
      · split at hq
        · cases hconn : allocate_connector innerFuel p.2
              (min (sum_alloc p.2 + under_count p.2 * fair) p.1.max_power) with
          | none => rw [hconn] at hq; cases hq
          | some ss2 =>
            rw [hconn] at hq
            obtain rfl := Option.some.inj hq
            obtain ⟨t, ht, hteq⟩ :=
              map_zero_eq_mem (allocate_connector_skeleton hconn) hs
            have := hgs p (List.mem_cons_self p rest) t ht
            rw [hteq] at this
            exact this
        · obtain rfl := Option.some.inj hq
          exact hgs p (List.mem_cons_self p rest) s hs
      · exact ih (fun p3 hp3 => hgs p3 (List.mem_cons_of_mem p hp3)) hrest p2 hmem s hs
    · cases h

theorem station_loop_tags {innerFuel fuel cap : Nat}
    {gs gs2 : List (ChargerConfig × List Session)}
    (hgs : group_tags_ok gs) (h : station_loop innerFuel fuel cap gs = some gs2) :
    group_tags_ok gs2 := by
  induction fuel generalizing gs with
  | zero => cases h
  | succ n ih =>
    rw [station_loop] at h
    split at h
    · obtain rfl := Option.some.inj h
      exact hgs
    · simp only [] at h
      split at h
      · obtain rfl := Option.some.inj h
        exact hgs
      · split at h
        · rename_i gsmid hupd
          exact ih (update_groups_tags hgs hupd) h
        · cases h

theorem map_fst_of_skel {gs gs2 : List (ChargerConfig × List Session)}
    (h : gs2.map (fun p => (p.1, p.2.map zero_alloc)) = gs.map (fun p => (p.1, p.2.map zero_alloc))) :
    gs2.map Prod.fst = gs.map Prod.fst := by
  have := congrArg (List.map Prod.fst) h
  simpa [List.map_map, Function.comp] using this

theorem mem_flatten_sessions {s : Session} {gs : List (ChargerConfig × List Session)} :
    s ∈ flatten_sessions gs ↔ ∃ p ∈ gs, s ∈ p.2 := by
  induction gs with
  | nil => simp [flatten_sessions]
  | cons p rest ih =>
    simp [flatten_sessions, List.mem_append, ih]

theorem group_sessions_fst_sublist (C : List ChargerConfig) (S : List Session) :
    List.Sublist ((group_sessions C S).map Prod.fst) C := by
  have h1 : List.Sublist (group_sessions C S)
      (C.map fun c => (c, charger_sessions_of S c)) :=
    List.filter_sublist _
  have h2 := List.Sublist.map Prod.fst h1
  rw [List.map_map] at h2
  have h3 : C.map (Prod.fst ∘ fun c => (c, charger_sessions_of S c)) = C := by
    rw [show (Prod.fst ∘ fun c => (c, charger_sessions_of S c)) = id from rfl, List.map_id]
  rw [h3] at h2
  exact h2

/-- C5: in the session set returned by `allocate_power_station`, any two
sessions bound to the same charger whose final allocation is strictly
below their `vehicle_max_power` differ by at most 1 kW (indeed they are
equal: every water-filling round adds the same fair share to every
strictly-under-max session of a charger).  Charger ids are distinct, as
`HashMap` keys are. -/
theorem within_charger_fairness {innerFuel fuel k : Nat} {S out : List Session}
    {C : List ChargerConfig} {s t : Session}
    (hnd : (C.map ChargerConfig.id).Nodup)
    (h : allocate_power_station innerFuel fuel S C k = some out)
    (hs : s ∈ out) (ht : t ∈ out)
    (hct : s.connector_id.charger_id = t.connector_id.charger_id)
    (hsu : s.allocated_power < s.vehicle_max_power)
    (htu : t.allocated_power < t.vehicle_max_power) :
    s.allocated_power ≤ t.allocated_power + 1
      ∧ t.allocated_power ≤ s.allocated_power + 1 := by
  unfold allocate_power_station at h
  cases hsl : station_loop innerFuel fuel k (group_sessions C S) with
  | none =>
    rw [hsl] at h
    cases h
  | some gs2 =>
    rw [hsl] at h
    simp only [Option.map_some'] at h
    obtain rfl := Option.some.inj h
    obtain ⟨p, hp, hsp⟩ := mem_flatten_sessions.mp hs
    obtain ⟨q, hq, htq⟩ := mem_flatten_sessions.mp ht
    have htags := station_loop_tags (group_tags_ok_init C S) hsl
    have hid : p.1.id = q.1.id := by
      rw [← htags p hp s hsp, ← htags q hq t htq]
      exact hct
    have hnodup2 : (gs2.map (fun p => p.1.id)).Nodup := by
      have hfst := map_fst_of_skel (station_loop_skeleton hsl)
      have hsub : List.Sublist (((group_sessions C S).map Prod.fst).map ChargerConfig.id)
          (C.map ChargerConfig.id) :=
        List.Sublist.map ChargerConfig.id (group_sessions_fst_sublist C S)
      have hnd2 := List.Nodup.sublist hsub hnd
      have heqm : gs2.map (fun p => p.1.id)
          = ((group_sessions C S).map Prod.fst).map ChargerConfig.id := by
        rw [← hfst, List.map_map]
        rfl
      rw [heqm]
      exact hnd2
    have hpq : p = q := List.inj_on_of_nodup_map hnodup2 hp hq hid
    subst hpq
    have heq := station_loop_equal_under (group_sessions_equal_under C S) hsl p hp
    have := heq s hsp t htq hsu htu
    omega

/-- Witness for C5: the two CP001 sessions of the station-limit test (both
strictly under their `vehicle_max_power`) receive equal allocations. -/
theorem within_charger_fairness_witness :
    ((100 : Nat) ≤ 100 + 1) ∧ ((100 : Nat) ≤ 100 + 1) :=
  @within_charger_fairness 12 12 200
    [⟨1, ⟨"CP001", 1⟩, 0, 150⟩, ⟨2, ⟨"CP001", 2⟩, 0, 180⟩]
    [⟨1, ⟨"CP001", 1⟩, 100, 150⟩, ⟨2, ⟨"CP001", 2⟩, 100, 180⟩]
    [⟨"CP001", 300, 2⟩] ⟨1, ⟨"CP001", 1⟩, 100, 150⟩ ⟨2, ⟨"CP001", 2⟩, 100, 180⟩
    (by decide) rfl (by decide) (by decide) rfl (by decide) (by decide)
